import Mathlib

/-!
# Verification of the multi-vendor market-data fetch pipelines

Shallow embedding of `scripts/fetch_a_indices.py` and
`scripts/fetch_holdings_and_flows.py`.

Modelling conventions:
* A pandas `DataFrame` returned by a vendor is a `RawFrame`: a named index
  (`indexName`/`indexVals`) plus data columns (`cols`/`cells`).  Dates and
  monetary values are both coded as `Nat` (dates as ordinal day numbers,
  prices as integer cents); nothing here needs fractional arithmetic.
* A vendor call (`yf.download`, `ak.stock_zh_index_daily`, ...) is an input of
  type `VResp`: either a raised exception (`Except.error`), a `None` return
  (`Except.ok none`), or a frame (`Except.ok (some raw)`).
* `df.reset_index()` turns the index into the first data column
  (`resetIndex`); lowercasing the column labels is `lowerFrame`.  The akshare
  adapter never resets the index, so its frame is `dropIndexFrame`.
* Filtering, column projection and the outer-join merge are translated
  operation by operation from the pandas calls in the scripts.
-/

namespace MarketFetch

/-- A raw tabular vendor response: a pandas DataFrame with a (possibly
meaningful) index column plus data columns.  `cells` is row-major and each row
is read positionally against `cols`. -/
structure RawFrame where
  indexName : String
  indexVals : List Nat
  cols : List String
  cells : List (List Nat)
deriving Repr, DecidableEq

/-- A plain (index-free) table: column labels plus row-major cells. -/
structure Frame where
  cols : List String
  rows : List (List Nat)
deriving Repr, DecidableEq

/-- Pandas `df.empty`: no rows. -/
def RawFrame.isEmpty (r : RawFrame) : Bool :=
  r.indexVals.isEmpty

/-- Translation of `df.reset_index()`: the index becomes the first data column. -/
def resetIndex (r : RawFrame) : Frame :=
  ⟨r.indexName :: r.cols, (r.indexVals.zip r.cells).map (fun p => p.1 :: p.2)⟩

/-- Using a raw frame's data columns directly, ignoring its index (what the
akshare adapter does: it never calls `reset_index` before normalizing). -/
def dropIndexFrame (r : RawFrame) : Frame :=
  ⟨r.cols, r.cells⟩

/-- ASCII lowercasing of one character, as `str.lower` acts on column names. -/
def lowerChar (c : Char) : Char :=
  if 'A' ≤ c ∧ c ≤ 'Z' then Char.ofNat (c.toNat + 32) else c

/-- Lowercase a column label. -/
def lowerStr (s : String) : String :=
  ⟨s.data.map lowerChar⟩

/-- Translation of `rename(columns=lambda x: str(x).lower())` and of `out.columns = [str(c).lower() ...]`. -/
def lowerFrame (f : Frame) : Frame :=
  ⟨f.cols.map lowerStr, f.rows⟩

/-- Position of a column label in a column list (first occurrence). -/
def idxOf : List String → String → Option Nat
  | [], _ => none
  | c :: cs, d => if c = d then some 0 else (idxOf cs d).map (· + 1)

/-- Read one cell of a row by column name. -/
def cellAt (cols : List String) (row : List Nat) (c : String) : Nat :=
  match idxOf cols c with
  | some i => row.getD i 0
  | none => 0

/-- Translation of `df[keep]`: project a frame onto a list of columns. -/
def selectCols (f : Frame) (keep : List String) : Frame :=
  ⟨keep, f.rows.map (fun r => keep.map (fun c => cellAt f.cols r c))⟩

/-- Outcome of one raw vendor call: exception, `None`, or a frame. -/
abbrev VResp := Except String (Option RawFrame)

/-- A fetched per-instrument series: the normalized frame plus the `source`
column (constant per frame in the scripts, so modelled as a field). -/
structure Fetched where
  frame : Frame
  src : String
deriving Repr, DecidableEq

/-- The function `fetch_yahoo` of `fetch_a_indices.py`: call `yf.download(symbol,
start=START, ...)` (the start date is only forwarded to the vendor, whose
behaviour is the argument `yv`), fail on exception / `None` / empty, then
`reset_index` and lowercase the column names, require `date` and `close`
columns, and tag with `source = "yahoo"`.  No row of the response is filtered
against `START`. -/
def fetchYahoo (start : Nat) (yv : Nat → VResp) : Option Fetched :=
  match yv start with
  | .error _ => none
  | .ok none => none
  | .ok (some raw) =>
    if raw.isEmpty then none
    else
      let out := lowerFrame (resetIndex raw)
      if "date" ∈ out.cols ∧ "close" ∈ out.cols then some ⟨out, "yahoo"⟩
      else none

/-- The canonical column set kept by the akshare adapter. -/
def canonicalCols : List String :=
  ["date", "open", "high", "low", "close", "volume"]

/-- The function `fetch_akshare` of `fetch_a_indices.py`: call
`ak.stock_zh_index_daily(symbol)` (no start parameter exists for this
endpoint), fail on exception / `None` / empty, lowercase the column names
WITHOUT resetting the index, convert `out["date"]` (a `KeyError` — hence the
adapter's `except` branch and `none` — when no `date` column survived), keep
the canonical columns that are present, tag with `source = "akshare"` and
filter out rows whose date is before `start`. -/
def fetchAkshare (start : Nat) (av : VResp) : Option Fetched :=
  match av with
  | .error _ => none
  | .ok none => none
  | .ok (some raw) =>
    if raw.isEmpty then none
    else
      let out := lowerFrame (dropIndexFrame raw)
      if "date" ∈ out.cols then
        let keep := canonicalCols.filter (fun c => c ∈ out.cols)
        let g := selectCols out keep
        let dIdx := (idxOf g.cols "date").getD 0
        some ⟨⟨g.cols, g.rows.filter (fun r => start ≤ r.getD dIdx 0)⟩, "akshare"⟩
      else none

/-- A fetched holding price series: normalized frame plus the `symbol` column
(constant per frame, modelled as a field). -/
structure PricedFrame where
  frame : Frame
  symbol : String
deriving Repr, DecidableEq

/-- Number of attempts made by `fetch_price` (`max_retries = 2`). -/
def maxRetries : Nat := 2

/-- The attempt loop of `fetch_price` from `fetch_holdings_and_flows.py`,
over the list of remaining per-attempt vendor outcomes.  An exception moves
on to the next attempt (after `time.sleep`); an empty / `None` response or a
response missing `date`/`close` after `reset_index` + lowercasing returns
`None` at once, with no further attempt. -/
def fetchPriceAux (sym : String) : List VResp → Option PricedFrame
  | [] => none
  | r :: rest =>
    match r with
    | .error _ => fetchPriceAux sym rest
    | .ok none => none
    | .ok (some raw) =>
      if raw.isEmpty then none
      else
        let out := lowerFrame (resetIndex raw)
        if "date" ∈ out.cols ∧ "close" ∈ out.cols then some ⟨out, sym⟩
        else none

/-- The function `fetch_price(sym)`: run the attempt loop for at most `maxRetries`
attempts against the vendor behaviour `attempts` (the outcome of
`yf.download` on each successive attempt). -/
def fetchPrice (sym : String) (attempts : List VResp) : Option PricedFrame :=
  fetchPriceAux sym (attempts.take maxRetries)

/-- A series as returned by `fetch_one`: the fetched frame plus the constant
`label` and `ticker` columns added by the resolver. -/
structure Tagged where
  fetched : Fetched
  label : String
  ticker : String
deriving Repr, DecidableEq

/-- The resolver `fetch_one(name, yahoo_symbol, ak_symbol)`: try Yahoo first; only when it
fails, call akshare.  The second component of the result records whether the
akshare vendor was invoked at all. -/
def fetchOne (name ysym asym : String) (start : Nat)
    (yv : Nat → VResp) (av : VResp) : Option Tagged × Bool :=
  match fetchYahoo start yv with
  | some fd => (some ⟨fd, name, ysym⟩, false)
  | none =>
    match fetchAkshare start av with
    | some fd => (some ⟨fd, name, asym⟩, true)
    | none => (none, true)

/-- Outcome of one `ak.stock_individual_fund_flow` call. -/
abbrev FResp := Except String (Option Frame)

/-- The function `try_fetch_flow(sym)`: the whole body is inside `try/except`; an
exception, a `None` return or an empty frame all yield `None`, otherwise the
frame is returned (the added constant `symbol` column is tracked by the
caller).  Total by construction: no exception escapes. -/
def tryFetchFlow (fv : FResp) : Option Frame :=
  match fv with
  | .error _ => none
  | .ok none => none
  | .ok (some f) => if f.rows.isEmpty then none else some f

/-- One contributing series of the wide merge: the instrument's column label
and its `(date, close)` rows, i.e. `df[["date","close"]].rename(columns=
\x7b"close": label\x7d)`. -/
structure Ser where
  label : String
  rows : List (Nat × Nat)
deriving Repr, DecidableEq

/-- The dates of a contributing series. -/
def serDates (s : Ser) : List Nat :=
  s.rows.map (·.1)

/-- The accumulating merged wide table: the instrument labels joined so far,
and one row per date holding that date's close per instrument (or `none`). -/
structure Wide where
  labels : List String
  rows : List (Nat × List (Option Nat))
deriving Repr, DecidableEq

/-- The dates of the wide table's rows. -/
def wideDates (w : Wide) : List Nat :=
  w.rows.map (·.1)

/-- The close of series `s` on date `d`, if any. -/
def lookupClose (s : Ser) (d : Nat) : Option Nat :=
  (s.rows.find? (fun p => p.1 == d)).map (·.2)

/-- One all-absent row fragment for the instruments already merged. -/
def blankRow (w : Wide) : List (Option Nat) :=
  w.labels.map (fun _ => none)

/-- Translation of `pd.merge(merged, ds, on="date", how="outer")` for inputs with unique
dates: every existing row gains the new instrument's close on its date (or
`none`); dates only in the new series are appended with absent values for all
previous instruments. -/
def mergeStep (w : Wide) (s : Ser) : Wide :=
  ⟨w.labels ++ [s.label],
    w.rows.map (fun p => (p.1, p.2 ++ [lookupClose s p.1]))
      ++ (s.rows.filter (fun q => !(w.rows.any (fun p => p.1 == q.1)))).map
          (fun q => (q.1, blankRow w ++ [some q.2]))⟩

/-- The initialisation `merged = ds` on the first contributing series. -/
def initWide (s : Ser) : Wide :=
  ⟨[s.label], s.rows.map (fun p => (p.1, [some p.2]))⟩

/-- The merge loop `merged = ds if merged is None else pd.merge(...)` over
the contributing series, in input order; `none` when no series contributed. -/
def mergeAll : List Ser → Option Wide
  | [] => none
  | s :: rest => some (rest.foldl mergeStep (initWide s))

/-- Translation of `merged.sort_values("date").reset_index(drop=True)`: sort the rows of the
final table by date (applied exactly once, after all joins). -/
def sortByDate (w : Wide) : Wide :=
  ⟨w.labels, w.rows.insertionSort (fun p q => p.1 ≤ q.1)⟩

/-- Whether a character is stripped by Python's `str.strip()`. -/
def isWS (c : Char) : Bool :=
  c = ' ' || c = '\t' || c = '\n' || c = '\r'

/-- Python `str.strip()`: drop leading and trailing whitespace. -/
def stripStr (s : String) : String :=
  ⟨((s.data.dropWhile isWS).reverse.dropWhile isWS).reverse⟩

/-- Pandas `Series.unique()`: the distinct values, first occurrence first. -/
def uniqueFirst (l : List String) : List String :=
  l.foldl (fun acc x => if x ∈ acc then acc else acc ++ [x]) []

/-- The function `load_holdings`, from the `symbol` column onward (the column is a list of
optional raw strings; `none` models a missing value removed by `dropna`):
`[str(x).strip() for x in df["symbol"].dropna().unique() if str(x).strip()]`.
Note the order: `unique` deduplicates the RAW values, and stripping happens
afterwards. -/
def loadHoldings (col : List (Option String)) : List String :=
  let vals := col.filterMap id
  (uniqueFirst vals).filterMap (fun x =>
    let s := stripStr x
    if s = "" then none else some s)

/-- Translation of `df[["date","close"]]` as `(date, close)` pairs, reading both columns by
name from the fetched frame. -/
def projDateClose (f : Frame) : List (Nat × Nat) :=
  f.rows.map (fun r => (cellAt f.cols r "date", cellAt f.cols r "close"))

/-- One iteration of the index pipeline's fetch loop for one `(name,
yahoo_symbol, ak_symbol)` triple: `none` when `fetch_one` failed or returned
an empty frame (the instrument is skipped), otherwise the saved file's name
together with the `(date, close, label)` projection contributed to the
merge. -/
def indexStep (start : Nat) (yv : String → Nat → VResp) (av : String → VResp)
    (p : String × String × String) : Option (String × Ser) :=
  match (fetchOne p.1 p.2.1 p.2.2 start (yv p.2.1) (av p.2.2)).1 with
  | some tg =>
    if tg.fetched.frame.rows.isEmpty then none
    else some (p.1, ⟨p.1, projDateClose tg.fetched.frame⟩)
  | none => none

/-- The fatal message of the index pipeline (`raise SystemExit(...)`). -/
def indexFatalMsg : String :=
  "[FATAL] No index file saved; all sources failed. Check network or symbols."

/-- The function `main()` of `fetch_a_indices.py`, given the instrument list and the two
vendors' behaviours per symbol: per-instrument failures are skipped; if no
frame was collected the run aborts fatally (and no merged table exists);
otherwise the result is the list of saved per-index files and the merged,
date-sorted wide table. -/
def runIndexMain (instruments : List (String × String × String)) (start : Nat)
    (yv : String → Nat → VResp) (av : String → VResp) :
    Except String (List String × Wide) :=
  let saved := instruments.filterMap (indexStep start yv av)
  match mergeAll (saved.map (·.2)) with
  | none => Except.error indexFatalMsg
  | some w => Except.ok (saved.map (·.1), sortByDate w)

/-- Returns `true` exactly on `Except.ok`: the run finished without a fatal abort. -/
def exceptOk {α : Type} : Except String α → Bool
  | .ok _ => true
  | .error _ => false

/-- The loop state of the holdings pipeline's `main()`: the merged
accumulator, the per-symbol price files saved, the flow files saved, and the
symbols for which a flow fetch was issued (in call order). -/
structure HState where
  merged : Option Wide
  saved : List String
  savedFlows : List String
  flowCalls : List String
deriving Repr, DecidableEq

/-- One iteration of the holdings loop for symbol `s`: fetch the price (with
retries); on a non-`None`, non-empty result save the per-symbol file and fold
`(date, close)` into the merge accumulator; then always attempt the flow
fetch exactly once, saving its file only on a non-`None`, non-empty result. -/
def holdingsStep (pb : String → List VResp) (fb : String → FResp)
    (st : HState) (s : String) : HState :=
  let st1 :=
    match fetchPrice s (pb s) with
    | some pf =>
      if pf.frame.rows.isEmpty then st
      else
        { st with
          saved := st.saved ++ [s]
          merged := some (match st.merged with
            | none => initWide ⟨s, projDateClose pf.frame⟩
            | some w => mergeStep w ⟨s, projDateClose pf.frame⟩) }
    | none => st
  let st2 := { st1 with flowCalls := st1.flowCalls ++ [s] }
  match tryFetchFlow (fb s) with
  | some g => if g.rows.isEmpty then st2 else { st2 with savedFlows := st2.savedFlows ++ [s] }
  | none => st2

/-- The function `main()` of `fetch_holdings_and_flows.py` after the holdings list has
been loaded: loop over the symbols, then sort the merged table (when any
symbol succeeded) by date.  Total: no per-symbol failure aborts the run. -/
def runHoldingsMain (syms : List String) (pb : String → List VResp)
    (fb : String → FResp) : HState :=
  let fin := syms.foldl (holdingsStep pb fb) ⟨none, [], [], []⟩
  { fin with merged := fin.merged.map sortByDate }

/-- Whether symbol `s` counts as a successful holding fetch in `main()`
(`px is not None and not px.empty`). -/
def priceSuccess (pb : String → List VResp) (s : String) : Bool :=
  match fetchPrice s (pb s) with
  | some pf => !pf.frame.rows.isEmpty
  | none => false

/-- The `(date, close)` series contributed by a successful symbol. -/
def serOf (pb : String → List VResp) (s : String) : Ser :=
  ⟨s, match fetchPrice s (pb s) with
      | some pf => projDateClose pf.frame
      | none => []⟩

/-- The merge accumulation performed by the holdings loop on one successful
symbol: `merged = ds if merged is None else pd.merge(merged, ds, ...)`. -/
def mergeAcc (pb : String → List VResp) (m : Option Wide) (s : String) :
    Option Wide :=
  some (match m with
    | none => initWide (serOf pb s)
    | some w => mergeStep w (serOf pb s))

/-! ## Concrete instances used to exercise the definitions -/

/-- A well-formed Yahoo-style response: the date lives in the index. -/
def rawY : RawFrame := ⟨"Date", [20], ["Close"], [[7]]⟩

/-- A Yahoo-style response whose first row predates a start date of 10. -/
def rawEarly : RawFrame := ⟨"Date", [5, 20], ["Close"], [[1], [2]]⟩

/-- An akshare-style response: a positional index, the date as a column. -/
def rawAk : RawFrame :=
  ⟨"idx", [0, 1], ["Date", "Close", "Turnover"], [[5, 1, 9], [20, 2, 9]]⟩

/-- An empty vendor response. -/
def rawEmpty : RawFrame := ⟨"Date", [], ["Close"], []⟩

/-- A malformed response: after normalization neither `date` nor `close`. -/
def rawNoCols : RawFrame := ⟨"Index", [1], ["Foo"], [[2]]⟩

/-- A Yahoo vendor that answers `rawY` to any start date. -/
def yvGoodF : Nat → VResp := fun _ => Except.ok (some rawY)

/-- A Yahoo vendor that raises. -/
def yvErrF : Nat → VResp := fun _ => Except.error "yahoo down"

/-- An akshare vendor response carrying `rawAk`. -/
def avGoodF : VResp := Except.ok (some rawAk)

/-- A failing akshare vendor response. -/
def avErrF : VResp := Except.error "akshare down"

/-- Demo contributing series for the merge theorems. -/
def demoSers : List Ser := [⟨"A", [(1, 10), (2, 20)]⟩, ⟨"B", [(2, 30), (3, 40)]⟩]

/-- The outer-join merge of `demoSers`. -/
def demoMerged : Wide :=
  ⟨["A", "B"], [(1, [some 10, none]), (2, [some 20, some 30]), (3, [none, some 40])]⟩

/-- Demo series with unsorted dates, for the sorting theorem. -/
def demoSers2 : List Ser := [⟨"A", [(3, 30), (1, 10)]⟩, ⟨"B", [(2, 20)]⟩]

/-- The outer-join merge of `demoSers2` (unsorted, as the joins leave it). -/
def demoMerged2 : Wide :=
  ⟨["A", "B"], [(3, [some 30, none]), (1, [some 10, none]), (2, [none, some 20])]⟩

/-- A price-vendor behaviour for two demo holdings: `"G"` succeeds on the
first attempt, `"B"` returns an empty response. -/
def demoPb : String → List VResp :=
  fun s => if s = "G" then [Except.ok (some rawY)] else [Except.ok none]

/-- A flow-vendor behaviour that always raises. -/
def demoFb : String → FResp := fun _ => Except.error "akshare unreachable"

/-- A demo index-instrument list with one entry. -/
def demoInstruments : List (String × String × String) := [("IDX", "Y.SS", "shidx")]

/-- Per-symbol index vendors that always fail. -/
def demoYvBad : String → Nat → VResp := fun _ _ => Except.error "down"

/-- Per-symbol akshare vendor that always fails. -/
def demoAvBad : String → VResp := fun _ => Except.error "down"

/-- Per-symbol index Yahoo vendor that succeeds with `rawY`. -/
def demoYvGood : String → Nat → VResp := fun _ _ => Except.ok (some rawY)

instance : IsTotal (Nat × List (Option Nat)) (fun p q => p.1 ≤ q.1) :=
  ⟨fun a b => Nat.le_total a.1 b.1⟩

instance : IsTrans (Nat × List (Option Nat)) (fun p q => p.1 ≤ q.1) :=
  ⟨fun _ _ _ hab hbc => le_trans hab hbc⟩

/-! ## Lemmas about close lookup -/

theorem lookupClose_eq_none {s : Ser} {d : Nat} :
    lookupClose s d = none ↔ d ∉ serDates s := by
  simp only [lookupClose, Option.map_eq_none', List.find?_eq_none, beq_iff_eq,
    serDates, List.mem_map, not_exists]
  aesop

theorem find?_fst_of_nodup {l : List (Nat × Nat)} {d c : Nat}
    (hnd : (l.map (·.1)).Nodup) (hm : (d, c) ∈ l) :
    l.find? (fun p => p.1 == d) = some (d, c) := by
  induction l with
  | nil => cases hm
  | cons x xs ih =>
    rw [List.map_cons, List.nodup_cons] at hnd
    rcases List.mem_cons.mp hm with h | h
    · subst h
      exact List.find?_cons_of_pos _ (by simp)
    · have hne : (x.1 == d) = false := by
        simp only [beq_eq_false_iff_ne, ne_eq]
        intro he
        exact hnd.1 (he ▸ (List.mem_map.mpr ⟨(d, c), h, rfl⟩))
      rw [List.find?_cons_of_neg _ (by simp [hne]), ih hnd.2 h]

theorem lookupClose_of_mem {s : Ser} {d c : Nat}
    (hnd : (serDates s).Nodup) (hm : (d, c) ∈ s.rows) :
    lookupClose s d = some c := by
  rw [lookupClose, find?_fst_of_nodup hnd hm]
  rfl

/-! ## The outer-join merge invariant -/

/-- Invariant of the merge accumulator after folding the series `sers`:
the labels are the series labels in order, the dates are exactly (and
without duplicates) the union of the series' dates, and each row holds, per
instrument, that instrument's close on the row's date (or `none`). -/
structure GoodWide (sers : List Ser) (w : Wide) : Prop where
  labels_eq : w.labels = sers.map (·.label)
  dates_nodup : (wideDates w).Nodup
  mem_dates : ∀ d, d ∈ wideDates w ↔ ∃ s ∈ sers, d ∈ serDates s
  row_vals : ∀ p ∈ w.rows, p.2 = sers.map (fun s => lookupClose s p.1)

theorem wideDates_initWide (s : Ser) : wideDates (initWide s) = serDates s := by
  simp [wideDates, initWide, serDates]

theorem initWide_good {s : Ser} (hnd : (serDates s).Nodup) :
    GoodWide [s] (initWide s) := by
  refine ⟨by simp [initWide], ?_, ?_, ?_⟩
  · rw [wideDates_initWide]; exact hnd
  · intro d; rw [wideDates_initWide]; simp
  · intro p hp
    obtain ⟨q, hq, hpq⟩ := List.mem_map.mp hp
    subst hpq
    simp only [List.map_cons, List.map_nil]
    rw [lookupClose_of_mem hnd (by simpa using hq)]

theorem any_fst_eq {w : Wide} {d : Nat} :
    (w.rows.any (fun p => p.1 == d)) = true ↔ d ∈ wideDates w := by
  simp only [List.any_eq_true, beq_iff_eq, wideDates, List.mem_map]

theorem wideDates_mergeStep (w : Wide) (t : Ser) :
    wideDates (mergeStep w t)
      = wideDates w
        ++ (t.rows.filter (fun q => !(w.rows.any (fun p => p.1 == q.1)))).map (·.1) := by
  simp only [wideDates, mergeStep, List.map_append, List.map_map]
  rfl

theorem mergeStep_good {sers : List Ser} {w : Wide} {t : Ser}
    (hg : GoodWide sers w) (hnd : (serDates t).Nodup) :
    GoodWide (sers ++ [t]) (mergeStep w t) := by
  have hmemF : ∀ d : Nat,
      (d ∈ (t.rows.filter (fun q => !(w.rows.any (fun p => p.1 == q.1)))).map (·.1))
        ↔ d ∈ serDates t ∧ d ∉ wideDates w := by
    intro d
    simp only [List.mem_map, List.mem_filter, Bool.not_eq_true',
      serDates]
    constructor
    · rintro ⟨q, ⟨hq, hqc⟩, rfl⟩
      refine ⟨⟨q, hq, rfl⟩, ?_⟩
      intro hmem
      rw [← any_fst_eq (w := w) (d := q.1)] at hmem
      rw [hqc] at hmem
      cases hmem
    · rintro ⟨⟨q, hq, rfl⟩, hnot⟩
      refine ⟨q, ⟨hq, ?_⟩, rfl⟩
      rw [← Bool.not_eq_true, any_fst_eq]
      exact hnot
  have hFnd : ((t.rows.filter (fun q => !(w.rows.any (fun p => p.1 == q.1)))).map (·.1)).Nodup := by
    have hsub : (t.rows.filter (fun q => !(w.rows.any (fun p => p.1 == q.1)))).Sublist t.rows :=
      List.filter_sublist _
    exact hnd.sublist (hsub.map (·.1))
  refine ⟨?_, ?_, ?_, ?_⟩
  · simp [mergeStep, hg.labels_eq]
  · rw [wideDates_mergeStep]
    refine hg.dates_nodup.append hFnd ?_
    intro d hdw hdf
    exact ((hmemF d).mp hdf).2 hdw
  · intro d
    rw [wideDates_mergeStep, List.mem_append, hmemF d]
    constructor
    · rintro (hdw | ⟨hdt, _⟩)
      · obtain ⟨s, hs, hds⟩ := (hg.mem_dates d).mp hdw
        exact ⟨s, List.mem_append_left _ hs, hds⟩
      · exact ⟨t, List.mem_append_right _ (List.mem_singleton_self t), hdt⟩
    · rintro ⟨s, hs, hds⟩
      rcases List.mem_append.mp hs with hs | hs
      · exact Or.inl ((hg.mem_dates d).mpr ⟨s, hs, hds⟩)
      · rw [List.mem_singleton] at hs
        subst hs
        by_cases hw : d ∈ wideDates w
        · exact Or.inl hw
        · exact Or.inr ⟨hds, hw⟩
  · intro p hp
    rw [mergeStep] at hp
    rcases List.mem_append.mp hp with hp | hp
    · obtain ⟨q, hq, hpq⟩ := List.mem_map.mp hp
      subst hpq
      simp only [List.map_append, List.map_cons, List.map_nil]
      rw [hg.row_vals q hq]
    · obtain ⟨q, hq, hpq⟩ := List.mem_map.mp hp
      subst hpq
      rw [List.mem_filter] at hq
      have hqnot : q.1 ∉ wideDates w := by
        intro hmem
        rw [← any_fst_eq (w := w) (d := q.1)] at hmem
        have h2 := hq.2
        rw [hmem] at h2
        simp at h2
      have hnone : ∀ s ∈ sers, lookupClose s q.1 = none := by
        intro s hs
        rw [lookupClose_eq_none]
        intro hds
        exact hqnot ((hg.mem_dates q.1).mpr ⟨s, hs, hds⟩)
      simp only [List.map_append, List.map_cons, List.map_nil]
      have hblank : blankRow w = sers.map (fun s => lookupClose s q.1) := by
        rw [blankRow, hg.labels_eq, List.map_map]
        exact (List.map_congr_left (fun s hs => (hnone s hs).symm))
      rw [hblank, lookupClose_of_mem hnd (by simpa using hq.1)]

theorem foldl_good {rest : List Ser} :
    ∀ {sers : List Ser} {w : Wide}, GoodWide sers w →
      (∀ t ∈ rest, (serDates t).Nodup) →
      GoodWide (sers ++ rest) (rest.foldl mergeStep w) := by
  induction rest with
  | nil =>
    intro sers w hg _
    simpa using hg
  | cons t ts ih =>
    intro sers w hg hnd
    have h1 := mergeStep_good hg (hnd t (List.mem_cons_self t ts))
    have h2 := ih h1 (fun u hu => hnd u (List.mem_cons_of_mem t hu))
    simpa [List.append_assoc] using h2

theorem mergeAll_good {sers : List Ser} {w : Wide}
    (hm : mergeAll sers = some w)
    (hnd : ∀ s ∈ sers, (serDates s).Nodup) :
    GoodWide sers w := by
  cases sers with
  | nil => simp [mergeAll] at hm
  | cons s rest =>
    rw [mergeAll, Option.some.injEq] at hm
    subst hm
    have h0 := initWide_good (hnd s (List.mem_cons_self s rest))
    have h1 := foldl_good h0 (fun t ht => hnd t (List.mem_cons_of_mem s ht))
    simpa using h1

/-! ## Labels of the merged table (no uniqueness assumption needed) -/

theorem foldl_mergeStep_labels :
    ∀ (l : List Ser) (w : Wide),
      (l.foldl mergeStep w).labels = w.labels ++ l.map (·.label) := by
  intro l
  induction l with
  | nil => intro w; simp
  | cons t ts ih =>
    intro w
    rw [List.foldl_cons, ih]
    simp [mergeStep]

theorem mergeAll_labels {sers : List Ser} {w : Wide}
    (hm : mergeAll sers = some w) : w.labels = sers.map (·.label) := by
  cases sers with
  | nil => simp [mergeAll] at hm
  | cons s rest =>
    rw [mergeAll, Option.some.injEq] at hm
    subst hm
    rw [foldl_mergeStep_labels]
    simp [initWide]

theorem sortByDate_labels (w : Wide) : (sortByDate w).labels = w.labels := rfl

/-! ## Sortedness of the final table -/

theorem sortByDate_rows (w : Wide) :
    (sortByDate w).rows = w.rows.insertionSort (fun p q => p.1 ≤ q.1) := rfl

theorem sortByDate_strict {w : Wide} (hnd : (wideDates w).Nodup) :
    List.Pairwise (fun p q => p.1 < q.1) (sortByDate w).rows ∧
      (wideDates (sortByDate w)).Nodup := by
  have hperm : (sortByDate w).rows.Perm w.rows := by
    rw [sortByDate_rows]
    exact List.perm_insertionSort _ w.rows
  have hnd1 : (w.rows.map (fun p => p.1)).Nodup := hnd
  have hnd2 : (wideDates (sortByDate w)).Nodup := by
    rw [wideDates]
    exact ((hperm.map (fun p => p.1)).nodup_iff).mpr hnd1
  have hle : List.Pairwise (fun p q : Nat × List (Option Nat) => p.1 ≤ q.1)
      (sortByDate w).rows := by
    rw [sortByDate_rows]
    exact List.sorted_insertionSort _ w.rows
  have hne : List.Pairwise (fun p q : Nat × List (Option Nat) => p.1 ≠ q.1)
      (sortByDate w).rows := by
    have h3 : ((sortByDate w).rows.map (fun p => p.1)).Nodup := hnd2
    exact List.pairwise_map.mp h3
  refine ⟨(hle.and hne).imp ?_, hnd2⟩
  intro a b h
  exact lt_of_le_of_ne h.1 h.2

/-! ## Uniqueness bookkeeping of `load_holdings` -/

theorem foldl_unique_nodup :
    ∀ (l acc : List String), acc.Nodup →
      (l.foldl (fun acc x => if x ∈ acc then acc else acc ++ [x]) acc).Nodup := by
  intro l
  induction l with
  | nil => intro acc h; simpa using h
  | cons a as ih =>
    intro acc h
    rw [List.foldl_cons]
    by_cases ha : a ∈ acc
    · simpa [ha] using ih acc h
    · have : (acc ++ [a]).Nodup := by
        simp [List.nodup_append, h, ha]
      simpa [ha] using ih (acc ++ [a]) this

theorem uniqueFirst_nodup (l : List String) : (uniqueFirst l).Nodup :=
  foldl_unique_nodup l [] List.nodup_nil

theorem mem_foldl_unique :
    ∀ (l acc : List String) (x : String),
      x ∈ l.foldl (fun acc x => if x ∈ acc then acc else acc ++ [x]) acc →
      x ∈ acc ∨ x ∈ l := by
  intro l
  induction l with
  | nil => intro acc x h; exact Or.inl (by simpa using h)
  | cons a as ih =>
    intro acc x h
    rw [List.foldl_cons] at h
    by_cases ha : a ∈ acc
    · rcases ih _ x (by simpa [ha] using h) with h1 | h1
      · exact Or.inl h1
      · exact Or.inr (List.mem_cons_of_mem a h1)
    · rcases ih _ x (by simpa [ha] using h) with h1 | h1
      · rcases List.mem_append.mp h1 with h2 | h2
        · exact Or.inl h2
        · exact Or.inr (List.mem_cons.mpr (Or.inl (by simpa using h2)))
      · exact Or.inr (List.mem_cons_of_mem a h1)

theorem mem_of_mem_uniqueFirst {l : List String} {x : String}
    (h : x ∈ uniqueFirst l) : x ∈ l := by
  rcases mem_foldl_unique l [] x h with h1 | h1
  · cases h1
  · exact h1

theorem nodup_filterMap_subId {g : String → Option String}
    (hg : ∀ a c, g a = some c → c = a) :
    ∀ {l : List String}, l.Nodup → (l.filterMap g).Nodup := by
  intro l
  induction l with
  | nil => intro _; simp
  | cons a as ih =>
    intro h
    rw [List.nodup_cons] at h
    rw [List.filterMap_cons]
    cases hga : g a with
    | none => exact ih h.2
    | some c =>
      have hca := hg a c hga
      subst hca
      rw [List.nodup_cons]
      refine ⟨?_, ih h.2⟩
      intro hc
      obtain ⟨b, hb, hgb⟩ := List.mem_filterMap.mp hc
      have := hg b _ hgb
      subst this
      exact h.1 hb

/-! ## The holdings loop, component by component -/

theorem holdingsStep_saved (pb : String → List VResp) (fb : String → FResp)
    (st : HState) (s : String) :
    (holdingsStep pb fb st s).saved
      = st.saved ++ (if priceSuccess pb s = true then [s] else []) := by
  rcases hfp : fetchPrice s (pb s) with _ | pf <;>
    rcases htf : tryFetchFlow (fb s) with _ | g <;>
      simp only [holdingsStep, priceSuccess, hfp, htf] <;>
      repeat' split <;> simp_all

theorem holdingsStep_merged (pb : String → List VResp) (fb : String → FResp)
    (st : HState) (s : String) :
    (holdingsStep pb fb st s).merged
      = if priceSuccess pb s = true then mergeAcc pb st.merged s else st.merged := by
  rcases hfp : fetchPrice s (pb s) with _ | pf <;>
    rcases htf : tryFetchFlow (fb s) with _ | g <;>
      simp only [holdingsStep, priceSuccess, mergeAcc, serOf, hfp, htf] <;>
      repeat' split <;> simp_all

theorem holdingsStep_flowCalls (pb : String → List VResp) (fb : String → FResp)
    (st : HState) (s : String) :
    (holdingsStep pb fb st s).flowCalls = st.flowCalls ++ [s] := by
  rcases hfp : fetchPrice s (pb s) with _ | pf <;>
    rcases htf : tryFetchFlow (fb s) with _ | g <;>
      simp only [holdingsStep, hfp, htf] <;>
      repeat' split <;> simp_all

theorem foldl_holdings_saved (pb : String → List VResp) (fb : String → FResp) :
    ∀ (syms : List String) (st : HState),
      (syms.foldl (holdingsStep pb fb) st).saved
        = st.saved ++ syms.filter (fun s => priceSuccess pb s) := by
  intro syms
  induction syms with
  | nil => intro st; simp
  | cons s ss ih =>
    intro st
    rw [List.foldl_cons, ih, holdingsStep_saved]
    by_cases h : priceSuccess pb s = true <;> simp [h, List.filter_cons]

theorem foldl_holdings_merged (pb : String → List VResp) (fb : String → FResp) :
    ∀ (syms : List String) (st : HState),
      (syms.foldl (holdingsStep pb fb) st).merged
        = (syms.filter (fun s => priceSuccess pb s)).foldl (mergeAcc pb) st.merged := by
  intro syms
  induction syms with
  | nil => intro st; simp
  | cons s ss ih =>
    intro st
    rw [List.foldl_cons, ih, holdingsStep_merged]
    by_cases h : priceSuccess pb s = true <;> simp [h, List.filter_cons]

theorem foldl_holdings_flowCalls (pb : String → List VResp) (fb : String → FResp) :
    ∀ (syms : List String) (st : HState),
      (syms.foldl (holdingsStep pb fb) st).flowCalls = st.flowCalls ++ syms := by
  intro syms
  induction syms with
  | nil => intro st; simp
  | cons s ss ih =>
    intro st
    rw [List.foldl_cons, ih, holdingsStep_flowCalls]
    simp

theorem foldl_mergeAcc_some (pb : String → List VResp) :
    ∀ (l : List String) (w : Wide),
      l.foldl (mergeAcc pb) (some w)
        = some ((l.map (serOf pb)).foldl mergeStep w) := by
  intro l
  induction l with
  | nil => intro w; simp
  | cons s ss ih =>
    intro w
    rw [List.foldl_cons, List.map_cons, List.foldl_cons]
    exact ih (mergeStep w (serOf pb s))

theorem foldl_mergeAcc_eq_mergeAll (pb : String → List VResp) (l : List String) :
    l.foldl (mergeAcc pb) none = mergeAll (l.map (serOf pb)) := by
  cases l with
  | nil => simp [mergeAll]
  | cons s ss =>
    rw [List.foldl_cons, List.map_cons, mergeAll]
    exact foldl_mergeAcc_some pb ss (initWide (serOf pb s))

/-! ## Small facts about the vendor adapters -/

theorem fetchAkshare_src {start : Nat} {av : VResp} {fd : Fetched}
    (h : fetchAkshare start av = some fd) : fd.src = "akshare" := by
  rcases av with e | o
  · simp [fetchAkshare] at h
  · rcases o with _ | raw
    · simp [fetchAkshare] at h
    · by_cases h1 : raw.isEmpty = true
      · simp [fetchAkshare, h1] at h
      · by_cases h2 : "date" ∈ (lowerFrame (dropIndexFrame raw)).cols
        · obtain ⟨ffr, fsrc⟩ := fd
          simp [fetchAkshare, h1, h2] at h
          simp_all
        · simp [fetchAkshare, h1, h2] at h

theorem fetchYahoo_src {start : Nat} {yv : Nat → VResp} {fd : Fetched}
    (h : fetchYahoo start yv = some fd) : fd.src = "yahoo" := by
  rcases hyv : yv start with e | o
  · simp [fetchYahoo, hyv] at h
  · rcases o with _ | raw
    · simp [fetchYahoo, hyv] at h
    · by_cases h1 : raw.isEmpty = true
      · simp [fetchYahoo, hyv, h1] at h
      · by_cases h2 : "date" ∈ (lowerFrame (resetIndex raw)).cols
          ∧ "close" ∈ (lowerFrame (resetIndex raw)).cols
        · obtain ⟨ffr, fsrc⟩ := fd
          simp [fetchYahoo, hyv, h1, h2] at h
          simp_all
        · simp [fetchYahoo, hyv, h1, h2] at h

theorem fetchAkshare_rows_ge {start : Nat} {av : VResp} {fd : Fetched}
    (h : fetchAkshare start av = some fd) :
    ∀ r ∈ fd.frame.rows, start ≤ r.getD ((idxOf fd.frame.cols "date").getD 0) 0 := by
  rcases av with e | o
  · simp [fetchAkshare] at h
  · rcases o with _ | raw
    · simp [fetchAkshare] at h
    · by_cases h1 : raw.isEmpty = true
      · simp [fetchAkshare, h1] at h
      · by_cases h2 : "date" ∈ (lowerFrame (dropIndexFrame raw)).cols
        · simp [fetchAkshare, h1, h2] at h
          subst h
          intro r hr
          rw [List.mem_filter] at hr
          simpa using hr.2
        · simp [fetchAkshare, h1, h2] at h

theorem fetchYahoo_success_shape {start : Nat} {yv : Nat → VResp} {raw : RawFrame}
    (hy : yv start = Except.ok (some raw)) (h1 : raw.isEmpty = false)
    (h2 : "date" ∈ (lowerFrame (resetIndex raw)).cols)
    (h3 : "close" ∈ (lowerFrame (resetIndex raw)).cols) :
    fetchYahoo start yv = some ⟨lowerFrame (resetIndex raw), "yahoo"⟩ := by
  simp [fetchYahoo, hy, h1, h2, h3]

theorem fetchOne_primary {name ysym asym : String} {start : Nat}
    {yv : Nat → VResp} {av : VResp} {fd : Fetched}
    (hy : fetchYahoo start yv = some fd) :
    fetchOne name ysym asym start yv av = (some ⟨fd, name, ysym⟩, false) := by
  simp [fetchOne, hy]

theorem fetchOne_secondary {name ysym asym : String} {start : Nat}
    {yv : Nat → VResp} {av : VResp} {fd : Fetched}
    (hy : fetchYahoo start yv = none) (ha : fetchAkshare start av = some fd) :
    fetchOne name ysym asym start yv av = (some ⟨fd, name, asym⟩, true) := by
  simp [fetchOne, hy, ha]

theorem fetchOne_both_fail {name ysym asym : String} {start : Nat}
    {yv : Nat → VResp} {av : VResp}
    (hy : fetchYahoo start yv = none) (ha : fetchAkshare start av = none) :
    fetchOne name ysym asym start yv av = (none, true) := by
  simp [fetchOne, hy, ha]

/-! ## The orchestrators -/

theorem runIndexMain_all_fail {instruments : List (String × String × String)}
    {start : Nat} {yv : String → Nat → VResp} {av : String → VResp}
    (h : ∀ i ∈ instruments, indexStep start yv av i = none) :
    runIndexMain instruments start yv av = Except.error indexFatalMsg := by
  have hsaved : instruments.filterMap (indexStep start yv av) = [] :=
    List.filterMap_eq_nil_iff.mpr h
  simp [runIndexMain, hsaved, mergeAll]

theorem runIndexMain_some_success {instruments : List (String × String × String)}
    {start : Nat} {yv : String → Nat → VResp} {av : String → VResp}
    {i : String × String × String} {v : String × Ser}
    (hi : i ∈ instruments) (hv : indexStep start yv av i = some v) :
    exceptOk (runIndexMain instruments start yv av) = true := by
  have hmem : v ∈ instruments.filterMap (indexStep start yv av) :=
    List.mem_filterMap.mpr ⟨i, hi, hv⟩
  rcases hsaved : instruments.filterMap (indexStep start yv av) with _ | ⟨a, l⟩
  · rw [hsaved] at hmem
    cases hmem
  · simp [runIndexMain, hsaved, mergeAll, exceptOk]

theorem runHoldingsMain_saved (syms : List String) (pb : String → List VResp)
    (fb : String → FResp) :
    (runHoldingsMain syms pb fb).saved
      = syms.filter (fun s => priceSuccess pb s) := by
  simp [runHoldingsMain, foldl_holdings_saved]

theorem runHoldingsMain_merged (syms : List String) (pb : String → List VResp)
    (fb : String → FResp) :
    (runHoldingsMain syms pb fb).merged
      = (mergeAll ((syms.filter (fun s => priceSuccess pb s)).map (serOf pb))).map
          sortByDate := by
  simp [runHoldingsMain, foldl_holdings_merged, foldl_mergeAcc_eq_mergeAll]

theorem runHoldingsMain_flowCalls (syms : List String) (pb : String → List VResp)
    (fb : String → FResp) :
    (runHoldingsMain syms pb fb).flowCalls = syms := by
  simp [runHoldingsMain, foldl_holdings_flowCalls]

/-! ## The claims -/

/-- C1, counterexample: the claim says every adapter filters out rows earlier
than the configured start date instead of trusting the vendor.  The Yahoo
adapter does not: with start 10, a vendor response containing a row dated 5
succeeds and the returned series still contains that row (date 5 < 10). -/
theorem yahoo_returns_row_before_start :
    fetchYahoo 10 (fun _ => Except.ok (some rawEarly))
      = some ⟨⟨["date", "close"], [[5, 1], [20, 2]]⟩, "yahoo"⟩ ∧
    [5, 1] ∈ [[5, 1], [20, 2]] ∧
    cellAt ["date", "close"] [5, 1] "date" < 10 := by
  decide

/-- C1 (amended): only the akshare adapter filters rows against the start
date — every row of a successful akshare fetch has date ≥ start — while both
Yahoo-based adapters merely forward the start date to the vendor (in the
embedding the vendor behaviour is the response to that forwarded request) and
return the normalized response rows unchanged: a successful `fetch_yahoo`
returns exactly the reset-and-lowercased response, and so does a successful
first-attempt `fetch_price`, with no row filtered in either. -/
theorem start_filter_akshare_only :
    (∀ (start : Nat) (av : VResp) (fd : Fetched), fetchAkshare start av = some fd →
      ∀ r ∈ fd.frame.rows, start ≤ r.getD ((idxOf fd.frame.cols "date").getD 0) 0) ∧
    (∀ (start : Nat) (yv : Nat → VResp) (raw : RawFrame),
      yv start = Except.ok (some raw) → raw.isEmpty = false →
      "date" ∈ (lowerFrame (resetIndex raw)).cols →
      "close" ∈ (lowerFrame (resetIndex raw)).cols →
      fetchYahoo start yv = some ⟨lowerFrame (resetIndex raw), "yahoo"⟩) ∧
    (∀ (sym : String) (raw : RawFrame) (rest : List VResp),
      raw.isEmpty = false →
      "date" ∈ (lowerFrame (resetIndex raw)).cols →
      "close" ∈ (lowerFrame (resetIndex raw)).cols →
      fetchPrice sym (Except.ok (some raw) :: rest)
        = some ⟨lowerFrame (resetIndex raw), sym⟩) := by
  refine ⟨fun _ _ _ h => fetchAkshare_rows_ge h,
    fun _ _ _ hy h1 h2 h3 => fetchYahoo_success_shape hy h1 h2 h3, ?_⟩
  intro sym raw rest h1 h2 h3
  simp [fetchPrice, maxRetries, fetchPriceAux, h1, h2, h3]

/-- Witness for `start_filter_akshare_only` at concrete inputs; the
`fetch_price` conjunct is exercised on the response whose first row predates
the nominal start, showing the row survives there too. -/
theorem start_filter_akshare_only_witness :
    (∀ r ∈ (Fetched.mk ⟨["date", "close"], [[20, 2]]⟩ "akshare").frame.rows,
      10 ≤ r.getD ((idxOf (Fetched.mk ⟨["date", "close"], [[20, 2]]⟩
        "akshare").frame.cols "date").getD 0) 0) ∧
    fetchYahoo 10 yvGoodF = some ⟨lowerFrame (resetIndex rawY), "yahoo"⟩ ∧
    fetchPrice "X" [Except.ok (some rawEarly)]
      = some ⟨lowerFrame (resetIndex rawEarly), "X"⟩ :=
  ⟨start_filter_akshare_only.1 10 avGoodF _ (by decide),
   start_filter_akshare_only.2.1 10 yvGoodF rawY rfl (by decide) (by decide) (by decide),
   start_filter_akshare_only.2.2 "X" rawEarly [] (by decide) (by decide) (by decide)⟩

/-- C2, counterexample: the claim says an empty response triggers the bounded
retry.  It does not: with an empty first response and a good second response,
`fetch_price` fails without a second attempt, while the same good second
response is reached when the first attempt raises an exception. -/
theorem empty_response_not_retried :
    fetchPrice "X" [Except.ok none, Except.ok (some rawY)] = none ∧
    fetchPrice "X" [Except.error "boom", Except.ok (some rawY)]
      = some ⟨⟨["date", "close"], [[20, 7]]⟩, "X"⟩ := by
  decide

/-- C2 (amended): in `fetch_price` only a transport exception moves on to the
next attempt; an empty/`None` response and a response missing the required
columns after normalization abort the fetch immediately with failure; the
attempt count is capped at `maxRetries`, and exhausting it with exceptions
yields failure. -/
theorem retry_only_on_exception (sym : String) :
    (∀ (e : String) (rest : List VResp),
      fetchPriceAux sym (Except.error e :: rest) = fetchPriceAux sym rest) ∧
    (∀ rest : List VResp, fetchPriceAux sym (Except.ok none :: rest) = none) ∧
    (∀ (raw : RawFrame) (rest : List VResp), raw.isEmpty = true →
      fetchPriceAux sym (Except.ok (some raw) :: rest) = none) ∧
    (∀ (raw : RawFrame) (rest : List VResp), raw.isEmpty = false →
      ("date" ∉ (lowerFrame (resetIndex raw)).cols ∨
        "close" ∉ (lowerFrame (resetIndex raw)).cols) →
      fetchPriceAux sym (Except.ok (some raw) :: rest) = none) ∧
    (∀ attempts : List VResp,
      fetchPrice sym attempts = fetchPriceAux sym (attempts.take maxRetries)) ∧
    (∀ e1 e2 : String, ∀ rest : List VResp,
      fetchPrice sym (Except.error e1 :: Except.error e2 :: rest) = none) := by
  refine ⟨fun e rest => rfl, fun rest => rfl, ?_, ?_, fun attempts => rfl,
    fun e1 e2 rest => rfl⟩
  · intro raw rest h1
    simp [fetchPriceAux, h1]
  · intro raw rest h1 h2
    have hc : ¬("date" ∈ (lowerFrame (resetIndex raw)).cols ∧
        "close" ∈ (lowerFrame (resetIndex raw)).cols) := by tauto
    simp [fetchPriceAux, h1, hc]

/-- Witness for `retry_only_on_exception` at concrete inputs. -/
theorem retry_only_on_exception_witness :
    fetchPriceAux "X" [Except.error "e"] = fetchPriceAux "X" [] ∧
    fetchPriceAux "X" [Except.ok none] = none ∧
    fetchPriceAux "X" [Except.ok (some rawEmpty)] = none ∧
    fetchPriceAux "X" [Except.ok (some rawNoCols)] = none ∧
    fetchPrice "X" [Except.error "a", Except.error "b"] = none :=
  ⟨(retry_only_on_exception "X").1 "e" [],
   (retry_only_on_exception "X").2.1 [],
   (retry_only_on_exception "X").2.2.1 rawEmpty [] (by decide),
   (retry_only_on_exception "X").2.2.2.1 rawNoCols [] (by decide) (by decide),
   (retry_only_on_exception "X").2.2.2.2.2 "a" "b" []⟩

/-- C3: the fallback resolver tries Yahoo first; a non-empty, schema-valid
Yahoo response is returned tagged `"yahoo"` without invoking akshare (the
Boolean component of `fetchOne` records an akshare invocation); if Yahoo
fails and akshare succeeds the result is tagged `"akshare"`; if both fail the
resolver returns a definitive failure. -/
theorem fallback_order_respected (name ysym asym : String) (start : Nat)
    (yv : Nat → VResp) (av : VResp) :
    (∀ raw : RawFrame, yv start = Except.ok (some raw) → raw.isEmpty = false →
      "date" ∈ (lowerFrame (resetIndex raw)).cols →
      "close" ∈ (lowerFrame (resetIndex raw)).cols →
      fetchOne name ysym asym start yv av
        = (some ⟨⟨lowerFrame (resetIndex raw), "yahoo"⟩, name, ysym⟩, false)) ∧
    (∀ fd : Fetched, fetchYahoo start yv = none → fetchAkshare start av = some fd →
      fetchOne name ysym asym start yv av = (some ⟨fd, name, asym⟩, true) ∧
        fd.src = "akshare") ∧
    (fetchYahoo start yv = none → fetchAkshare start av = none →
      fetchOne name ysym asym start yv av = (none, true)) := by
  refine ⟨?_, ?_, ?_⟩
  · intro raw hy h1 h2 h3
    exact fetchOne_primary (fetchYahoo_success_shape hy h1 h2 h3)
  · intro fd hy ha
    exact ⟨fetchOne_secondary hy ha, fetchAkshare_src ha⟩
  · intro hy ha
    exact fetchOne_both_fail hy ha

/-- Witness for `fallback_order_respected`: the three branches exercised at
concrete vendor behaviours. -/
theorem fallback_order_respected_witness :
    fetchOne "N" "Y" "A" 0 yvGoodF avErrF
      = (some ⟨⟨lowerFrame (resetIndex rawY), "yahoo"⟩, "N", "Y"⟩, false) ∧
    (fetchOne "N" "Y" "A" 0 yvErrF avGoodF
      = (some ⟨⟨⟨["date", "close"], [[5, 1], [20, 2]]⟩, "akshare"⟩, "N", "A"⟩, true) ∧
      (Fetched.mk ⟨["date", "close"], [[5, 1], [20, 2]]⟩ "akshare").src = "akshare") ∧
    fetchOne "N" "Y" "A" 0 yvErrF avErrF = (none, true) :=
  ⟨(fallback_order_respected "N" "Y" "A" 0 yvGoodF avErrF).1 rawY rfl
      (by decide) (by decide) (by decide),
   (fallback_order_respected "N" "Y" "A" 0 yvErrF avGoodF).2.1
      ⟨⟨["date", "close"], [[5, 1], [20, 2]]⟩, "akshare"⟩ (by decide) (by decide),
   (fallback_order_respected "N" "Y" "A" 0 yvErrF avErrF).2.2 (by decide) (by decide)⟩

/-- C4: for series with unique dates (the data-model invariant), the merged
wide table — the fold of outer joins used by both pipelines — has exactly one
row per date in the union of the series' dates; each row carries, per
instrument, that instrument's close on the row's date, and the absent value
`none` exactly when the date is missing from that instrument's series. -/
theorem merge_outer_union (sers : List Ser) (w : Wide)
    (hm : mergeAll sers = some w)
    (hnd : ∀ s ∈ sers, (serDates s).Nodup) :
    (wideDates w).Nodup ∧
    (∀ d, d ∈ wideDates w ↔ ∃ s ∈ sers, d ∈ serDates s) ∧
    w.labels = sers.map (·.label) ∧
    (∀ p ∈ w.rows, p.2 = sers.map (fun s => lookupClose s p.1)) ∧
    (∀ p ∈ w.rows, ∀ (i : Nat) (s : Ser), sers[i]? = some s →
      (p.2[i]? = some none ↔ p.1 ∉ serDates s)) := by
  have hg := mergeAll_good hm hnd
  refine ⟨hg.dates_nodup, hg.mem_dates, hg.labels_eq, hg.row_vals, ?_⟩
  intro p hp i s hs
  rw [hg.row_vals p hp, List.getElem?_map, hs]
  simp only [Option.map_some', Option.some.injEq]
  exact lookupClose_eq_none

/-- Witness for `merge_outer_union` on two concrete overlapping series. -/
theorem merge_outer_union_witness :
    (wideDates demoMerged).Nodup ∧
    (∀ d, d ∈ wideDates demoMerged ↔ ∃ s ∈ demoSers, d ∈ serDates s) ∧
    demoMerged.labels = demoSers.map (·.label) ∧
    (∀ p ∈ demoMerged.rows, p.2 = demoSers.map (fun s => lookupClose s p.1)) ∧
    (∀ p ∈ demoMerged.rows, ∀ (i : Nat) (s : Ser), demoSers[i]? = some s →
      (p.2[i]? = some none ↔ p.1 ∉ serDates s)) :=
  merge_outer_union demoSers demoMerged (by decide) (by decide)

/-- C5: under the precondition that every contributing series has unique
dates, the final merged table — sorted by date exactly once, after all joins
(`sortByDate` is applied only to the fully folded `mergeAll` result, never
inside `mergeStep`) — is strictly ascending in its date column and free of
duplicate dates, in both pipelines. -/
theorem merge_sorted_unique (sers : List Ser) (w : Wide)
    (hm : mergeAll sers = some w)
    (hnd : ∀ s ∈ sers, (serDates s).Nodup) :
    List.Pairwise (fun p q => p.1 < q.1) (sortByDate w).rows ∧
    (wideDates (sortByDate w)).Nodup :=
  sortByDate_strict (mergeAll_good hm hnd).dates_nodup

/-- Witness for `merge_sorted_unique` on concrete unsorted joined series. -/
theorem merge_sorted_unique_witness :
    List.Pairwise (fun p q => p.1 < q.1) (sortByDate demoMerged2).rows ∧
    (wideDates (sortByDate demoMerged2)).Nodup :=
  merge_sorted_unique demoSers2 demoMerged2 (by decide) (by decide)

/-- C6: if no index at all yields a usable series (every `indexStep` is
`none`), the index run terminates with the fatal `SystemExit` error and the
merged table is never produced (the error branch of `runIndexMain` carries no
table); whereas one successful index keeps the run non-fatal no matter how
the others fared. -/
theorem index_zero_success_fatal (instruments : List (String × String × String))
    (start : Nat) (yv : String → Nat → VResp) (av : String → VResp) :
    ((∀ i ∈ instruments, indexStep start yv av i = none) →
      runIndexMain instruments start yv av = Except.error indexFatalMsg) ∧
    (∀ (i : String × String × String) (v : String × Ser), i ∈ instruments →
      indexStep start yv av i = some v →
      exceptOk (runIndexMain instruments start yv av) = true) :=
  ⟨fun h => runIndexMain_all_fail h,
   fun _ _ hi hv => runIndexMain_some_success hi hv⟩

/-- Witness for `index_zero_success_fatal`: one concrete instrument list,
once with both vendors down (fatal) and once with Yahoo up (non-fatal). -/
theorem index_zero_success_fatal_witness :
    runIndexMain demoInstruments 0 demoYvBad demoAvBad
      = Except.error indexFatalMsg ∧
    exceptOk (runIndexMain demoInstruments 0 demoYvGood demoAvBad) = true :=
  ⟨(index_zero_success_fatal demoInstruments 0 demoYvBad demoAvBad).1 (by decide),
   (index_zero_success_fatal demoInstruments 0 demoYvGood demoAvBad).2
     ("IDX", "Y.SS", "shidx") ("IDX", ⟨"IDX", [(20, 7)]⟩) (by decide) (by decide)⟩

/-- C7: when some holdings succeed and some fail every attempt, the holdings
run (a total function — no per-symbol failure can abort it) still saves
exactly the successful symbols' files, and the merged table exists with its
instrument columns exactly the successful symbols, in input order. -/
theorem holdings_partial_failure_tolerated (syms : List String)
    (pb : String → List VResp) (fb : String → FResp)
    (h1 : ∃ s ∈ syms, priceSuccess pb s = true)
    (hfail : ∃ s ∈ syms, priceSuccess pb s = false) :
    (runHoldingsMain syms pb fb).saved = syms.filter (fun s => priceSuccess pb s) ∧
    ∃ w, (runHoldingsMain syms pb fb).merged = some w ∧
      w.labels = syms.filter (fun s => priceSuccess pb s) := by
  refine ⟨runHoldingsMain_saved syms pb fb, ?_⟩
  obtain ⟨s0, hs0, hsucc⟩ := h1
  have hmem : s0 ∈ syms.filter (fun s => priceSuccess pb s) :=
    List.mem_filter.mpr ⟨hs0, hsucc⟩
  rcases hf : syms.filter (fun s => priceSuccess pb s) with _ | ⟨a, l⟩
  · rw [hf] at hmem
    cases hmem
  · have hm := runHoldingsMain_merged syms pb fb
    rw [hf, List.map_cons, mergeAll] at hm
    refine ⟨sortByDate ((l.map (serOf pb)).foldl mergeStep (initWide (serOf pb a))),
      by simpa using hm, ?_⟩
    rw [sortByDate_labels]
    have hmerge : mergeAll ((a :: l).map (serOf pb))
        = some ((l.map (serOf pb)).foldl mergeStep (initWide (serOf pb a))) := by
      rw [List.map_cons, mergeAll]
    rw [mergeAll_labels hmerge, List.map_map]
    simp [Function.comp_def, serOf]

/-- Witness for `holdings_partial_failure_tolerated`: two holdings, one
succeeding and one failing every attempt. -/
theorem holdings_partial_failure_tolerated_witness :
    (runHoldingsMain ["G", "B"] demoPb demoFb).saved
      = ["G", "B"].filter (fun s => priceSuccess demoPb s) ∧
    ∃ w, (runHoldingsMain ["G", "B"] demoPb demoFb).merged = some w ∧
      w.labels = ["G", "B"].filter (fun s => priceSuccess demoPb s) :=
  holdings_partial_failure_tolerated ["G", "B"] demoPb demoFb
    ⟨"G", by decide, by decide⟩ ⟨"B", by decide, by decide⟩

/-- C8: the flow fetch never influences the price outputs: the saved price
files and the merged table are identical under any two flow-vendor
behaviours; the flow fetch is issued exactly once per symbol (hence never
retried); and every flow exception is absorbed inside `try_fetch_flow`. -/
theorem flow_failure_isolated (syms : List String) (pb : String → List VResp)
    (fb fb2 : String → FResp) :
    (runHoldingsMain syms pb fb).saved = (runHoldingsMain syms pb fb2).saved ∧
    (runHoldingsMain syms pb fb).merged = (runHoldingsMain syms pb fb2).merged ∧
    (runHoldingsMain syms pb fb).flowCalls = syms ∧
    (∀ e : String, tryFetchFlow (Except.error e) = none) := by
  refine ⟨?_, ?_, runHoldingsMain_flowCalls syms pb fb, fun _ => rfl⟩
  · rw [runHoldingsMain_saved, runHoldingsMain_saved]
  · rw [runHoldingsMain_merged, runHoldingsMain_merged]

/-- C9: the two inconsistent normalizations for the same nominal task — the
Yahoo adapters reset the index before lowercasing column names, the akshare
adapter lowercases without resetting — diverge on the same vendor response:
when the date lives in the index, reset-first normalization yields a `date`
column (and the fetch succeeds) while no-reset normalization loses it (and
the fetch fails). -/
theorem normalization_order_divergence :
    ("date" ∈ (lowerFrame (resetIndex ⟨"Date", [5], ["Close"], [[1]]⟩)).cols) ∧
    ("date" ∉ (lowerFrame (dropIndexFrame ⟨"Date", [5], ["Close"], [[1]]⟩)).cols) ∧
    fetchYahoo 0 (fun _ => Except.ok (some ⟨"Date", [5], ["Close"], [[1]]⟩))
      = some ⟨⟨["date", "close"], [[5, 1]]⟩, "yahoo"⟩ ∧
    fetchAkshare 0 (Except.ok (some ⟨"Date", [5], ["Close"], [[1]]⟩)) = none := by
  decide

/-- C10, counterexample: `load_holdings` deduplicates the RAW values before
stripping, so a symbol appearing with and without surrounding whitespace
survives twice — the result is not duplicate-free and that symbol would be
fetched twice. -/
theorem load_holdings_whitespace_duplicates :
    loadHoldings [some "AAPL", some " AAPL"] = ["AAPL", "AAPL"] ∧
    ¬ (loadHoldings [some "AAPL", some " AAPL"]).Nodup := by
  decide

/-- C10 (amended): every entry of the symbol list is non-empty and is the
stripped form of some raw holdings entry; and when all raw entries are
already stripped, the list is duplicate-free — but deduplication acts on raw
values before stripping, so whitespace variants of one symbol survive as
duplicates. -/
theorem load_holdings_strip_amended (col : List (Option String)) :
    (∀ x ∈ loadHoldings col, x ≠ "" ∧ ∃ raw ∈ col.filterMap id, x = stripStr raw) ∧
    ((∀ x ∈ col.filterMap id, stripStr x = x) → (loadHoldings col).Nodup) := by
  constructor
  · intro x hx
    simp only [loadHoldings] at hx
    obtain ⟨a, ha, hfa⟩ := List.mem_filterMap.mp hx
    by_cases h : stripStr a = ""
    · simp [h] at hfa
    · simp only [h, if_false, ite_false, Option.some.injEq] at hfa
      refine ⟨?_, a, mem_of_mem_uniqueFirst ha, hfa.symm⟩
      rw [← hfa]
      exact h
  · intro hstrip
    simp only [loadHoldings]
    have hsub : ∀ a ∈ uniqueFirst (col.filterMap id),
        (fun x => if stripStr x = "" then none else some (stripStr x)) a
          = (fun x => if x = "" then none else some x) a := by
      intro a ha
      simp only [hstrip a (mem_of_mem_uniqueFirst ha)]
    rw [List.filterMap_congr hsub]
    refine nodup_filterMap_subId ?_ (uniqueFirst_nodup _)
    intro a c hc
    by_cases h : a = ""
    · simp [h] at hc
    · simp only [h, if_false, ite_false, Option.some.injEq] at hc
      exact hc.symm

/-- Witness for `load_holdings_strip_amended` at concrete holdings columns. -/
theorem load_holdings_strip_amended_witness :
    ("X" ≠ "" ∧ ∃ raw ∈ ([some " X ", none, some "Y"] : List (Option String)).filterMap id,
      "X" = stripStr raw) ∧
    (loadHoldings [some "X", some "Y"]).Nodup :=
  ⟨(load_holdings_strip_amended [some " X ", none, some "Y"]).1 "X" (by decide),
   (load_holdings_strip_amended [some "X", some "Y"]).2 (by decide)⟩

end MarketFetch
